import Mathlib

/-!
Shallow embedding of the results-aggregation pipeline of the repository
(`examples/process_evaluation_results.py`, `examples/combine_detail_results.py`,
`examples/extract_evaluation_results.py`).

Python dictionaries are embedded as association lists in insertion order;
dictionary lookup is `alookup` (first matching key), and the read of a
`defaultdict(float)` is `dget` (missing key reads as `0`).  Float arithmetic is
embedded over `ℚ`.
-/

namespace LightevalSpec

/-- Lookup in a Python dict embedded as an association list: the value of the
first pair whose key matches, if any. -/
def alookup {α : Type} (d : List (String × α)) (k : String) : Option α :=
  (d.find? (fun p => p.1 == k)).map Prod.snd

/-- Read access `d[k]` on a `defaultdict(float)`: a missing key yields `0.0`
instead of raising `KeyError`. -/
def dget (d : List (String × ℚ)) (k : String) : ℚ :=
  (alookup d k).getD 0

/-- One flattened evaluation record, as consumed by
`process_evaluation_results.py`: the columns `specifics.id`, `model_name` and
`metrics.acc_norm`. -/
structure Record where
  question_id : String
  model_name : String
  acc_norm : ℚ
  deriving DecidableEq, Repr

/-- `get_all_correct_ids`, per question group (`groupby('specifics.id')`):
`total_correct_answer / total_questions if total_questions > 0 else 0`. -/
def group_ratio (g : List ℚ) : ℚ :=
  if 0 < g.length then g.sum / (g.length : ℚ) else 0

/-- `get_all_correct_ids` over the question groups produced by
`groupby('specifics.id')`: returns `all_correct_ids` (the ids whose group has
`total_correct_answer >= total_questions`) and `correct_answer_ratio`
(id mapped to its group ratio). -/
def get_all_correct_ids (groups : List (String × List ℚ)) :
    List String × List (String × ℚ) :=
  (groups.filterMap (fun g =>
      if (g.2.length : ℚ) ≤ g.2.sum then some g.1 else none),
   groups.map (fun g => (g.1, group_ratio g.2)))

/-- The records kept by `calculate_models_accuracy`: with `filtered_ids=None`
all records, otherwise those whose `specifics.id` is `not in filtered_ids`. -/
def retained_records (records : List Record) (filtered_ids : Option (List String)) :
    List Record :=
  match filtered_ids with
  | none => records
  | some ids => records.filter (fun r => ! ids.contains r.question_id)

/-- The `metrics.acc_norm` column of the records of one model group
(`groupby('model_name')`). -/
def model_scores (records : List Record) (m : String) : List ℚ :=
  (records.filter (fun r => r.model_name == m)).map (fun r => r.acc_norm)

/-- `calculate_models_accuracy`: filter out `filtered_ids`, group the retained
records by `model_name`, and map each model that has a group (pandas `groupby`
produces only nonempty groups) to the mean of `metrics.acc_norm` over its
group.  The Python function stores these into a `defaultdict(float)` whose keys
are exactly the group keys. -/
def calculate_models_accuracy (records : List Record)
    (filtered_ids : Option (List String)) : List (String × ℚ) :=
  let retained := retained_records records filtered_ids
  let models := (retained.map (fun r => r.model_name)).dedup
  models.map (fun m =>
    (m, (model_scores retained m).sum / ((model_scores retained m).length : ℚ)))

/-- The `total_score` / `total_count` accumulation of
`compute_macro_micro_averages` for one model: over the subsets whose score dict
contains the model, add `score * count` and `count` where
`count = dataset_totals[subset]`. -/
def totals_for (er : List (String × List (String × ℚ))) (dt : String → ℚ)
    (m : String) : ℚ × ℚ :=
  er.foldl (fun acc s =>
    match alookup s.2 m with
    | some score => (acc.1 + score * dt s.1, acc.2 + dt s.1)
    | none => acc) (0, 0)

/-- The loop body of `compute_macro_micro_averages` for one model: when
`total_count > 0` the model gets a macro entry `total_score / total_count` and a
micro entry `sum(scores[model_name] for scores in evaluation_results.values())
/ len(evaluation_results)`, where `scores[model_name]` is the read of the
`defaultdict(float)` produced by `calculate_models_accuracy` (a missing model
reads as `0.0`); when `total_count <= 0` the model gets no entry at all. -/
def model_entry (all : List (String × List (String × ℚ))) (dt : String → ℚ)
    (m : String) : Option (String × ℚ × ℚ) :=
  if 0 < (totals_for all dt m).2 then
    some (m, (totals_for all dt m).1 / (totals_for all dt m).2,
          ((all.map (fun s => dget s.2 m)).sum / (all.length : ℚ)))
  else none

/-- `compute_macro_micro_averages`.  The iteration is over
`evaluation_results[next(iter(evaluation_results))].keys()`: the models of the
FIRST subset only (`none` embeds the `StopIteration` raised on an empty input
dict).  Each iterated model contributes through `model_entry`. -/
def compute_macro_micro_averages (er : List (String × List (String × ℚ)))
    (dt : String → ℚ) :
    Option (List (String × ℚ) × List (String × ℚ)) :=
  match er with
  | [] => none
  | (fn, fs) :: rest =>
    let all := (fn, fs) :: rest
    let entries := (fs.map Prod.fst).filterMap (model_entry all dt)
    some (entries.map (fun e => (e.1, e.2.1)), entries.map (fun e => (e.1, e.2.2)))

/-- Python `str.split(sep)` for a one-character separator, over a character
list: the result is always a nonempty list of separator-free pieces. -/
def splitCharList (sep : Char) : List Char → List (List Char)
  | [] => [[]]
  | c :: rest =>
    match splitCharList sep rest with
    | [] => [[]]
    | h :: t => if c = sep then [] :: h :: t else (c :: h) :: t

/-- Python `s.split(sep)` for a one-character separator `sep`. -/
def pySplit (sep : Char) (s : String) : List String :=
  (splitCharList sep s.data).map String.mk

/-- Python `c in s` for a one-character needle. -/
def pyContains (s : String) (c : Char) : Bool :=
  s.data.contains c

/-- Python `s.startswith(p)`. -/
def pyStartsWith (s p : String) : Bool :=
  p.data.isPrefixOf s.data

/-- Python `s[n:]`. -/
def pyDropChars (s : String) (n : Nat) : String :=
  ⟨s.data.drop n⟩

/-- Evaluation-name extraction of `process_evaluation_directory`
(`combine_detail_results.py`): `parts = filename.split('|')`; when
`len(parts) >= 2` the result is `parts[1].split('|')[0]`, else the fallback
takes `filename.split('_')[0]` and strips a literal `details_` prefix when
present. -/
def extract_eval_name (filename : String) : String :=
  let parts := pySplit '|' filename
  if 2 ≤ parts.length then
    (pySplit '|' (parts.getD 1 "")).getD 0 ""
  else
    let eval_name_part := (pySplit '_' filename).getD 0 ""
    if pyStartsWith eval_name_part "details_" then
      pyDropChars eval_name_part ("details_".length)
    else
      eval_name_part

/-- Timestamp derivation of `combine_results_memory_efficient`: when
`'_' in timestamp`, `timestamp.split('_')[-1]` (the last `_`-delimited
segment), else the raw string. -/
def extract_timestamp (evaluation_time : String) : String :=
  if pyContains evaluation_time '_' then
    (pySplit '_' evaluation_time).getLastD ""
  else
    evaluation_time

/-- The file metadata stored by `process_evaluation_directory`. -/
structure FileInfo where
  path : String
  model_name : String
  evaluation_time : String
  deriving DecidableEq, Repr

/-- One output row of the second pass of `combine_results_memory_efficient`:
the original row payload plus the attached `model_name`, `eval_name` and
`timestamp` columns. -/
structure TaggedRecord where
  payload : Nat
  model_name : String
  eval_name : String
  timestamp : String
  deriving DecidableEq, Repr

/-- The per-file body of the second pass of
`combine_results_memory_efficient`: every row of the loaded file gets
`model_name` from the file info, `eval_name` from the grouping key, and
`timestamp` derived from `evaluation_time`. -/
def tag_records (eval_name : String) (info : FileInfo) (rows : List Nat) :
    List TaggedRecord :=
  let timestamp := extract_timestamp info.evaluation_time
  rows.map (fun r => ⟨r, info.model_name, eval_name, timestamp⟩)

/-- The `total_weighted_acc` / `total_docs` accumulation of `extract_results`
(`extract_evaluation_results.py`): tasks whose `acc_norm` is present contribute
to `results`; among those, tasks whose `effective_num_docs` is present also
contribute `acc_norm * num_docs` and `num_docs` to the totals. -/
def extract_totals (tasks : List (Option ℚ × Option ℚ)) : ℚ × ℚ :=
  tasks.foldl (fun acc t =>
    match t.1, t.2 with
    | some a, some d => (acc.1 + a * d, acc.2 + d)
    | _, _ => acc) (0, 0)

/-- `macro_accuracy` of `extract_results`:
`total_weighted_acc / total_docs if total_docs > 0 else 0`. -/
def extract_macro_accuracy (tasks : List (Option ℚ × Option ℚ)) : ℚ :=
  if 0 < (extract_totals tasks).2 then
    (extract_totals tasks).1 / (extract_totals tasks).2
  else 0

/-- `save_results`: iterate the result sets in mapping order and write each to
its own JSON file.  There is no exception handling in the loop, so the first
failing write propagates and aborts the remaining iterations.  `failing` is the
set of artifact names whose write raises; the result is the list of artifact
names actually written and whether an exception escaped. -/
def save_results (failing : List String) : List String → List String × Bool
  | [] => ([], false)
  | n :: rest =>
    if failing.contains n then ([], true)
    else
      let r := save_results failing rest
      (n :: r.1, r.2)

/-- The per-file write loop of the second pass of
`combine_results_memory_efficient`: each file body is wrapped in
`try ... except Exception as e: print(...)`, so a failing file is reported and
skipped while all remaining files are still processed. -/
def combine_write_loop (failing : List String) (files : List String) :
    List String :=
  files.filter (fun n => ! failing.contains n)

/-! ### Helper lemmas about the embedded dictionary operations -/

theorem alookup_nil {α : Type} (k : String) :
    alookup ([] : List (String × α)) k = none := rfl

theorem alookup_cons {α : Type} (p : String × α) (d : List (String × α))
    (k : String) :
    alookup (p :: d) k = if p.1 == k then some p.2 else alookup d k := by
  by_cases h : p.1 == k
  · simp [alookup, List.find?_cons_of_pos, h]
  · simp [alookup, List.find?_cons_of_neg, h]

theorem alookup_isSome_iff {α : Type} (d : List (String × α)) (k : String) :
    (alookup d k).isSome = true ↔ k ∈ d.map Prod.fst := by
  induction d with
  | nil => simp [alookup]
  | cons p rest ih =>
    rw [alookup_cons]
    by_cases h : p.1 = k
    · simp [h]
    · simpa [h, Ne.symm h] using ih

theorem dget_eq_getD (d : List (String × ℚ)) (k : String) :
    dget d k = (alookup d k).getD 0 := rfl

/-- A `model_entry`, when present, is keyed by the model it was built for. -/
theorem model_entry_key (all : List (String × List (String × ℚ)))
    (dt : String → ℚ) (m : String) (e : String × ℚ × ℚ)
    (h : model_entry all dt m = some e) : e.1 = m := by
  unfold model_entry at h
  by_cases hc : 0 < (totals_for all dt m).2
  · rw [if_pos hc] at h
    cases h
    rfl
  · rw [if_neg hc] at h
    cases h

/-- Lookup of one model in either projection of the entry list built by
`compute_macro_micro_averages`. -/
theorem alookup_entries (all : List (String × List (String × ℚ)))
    (dt : String → ℚ) (models : List String) (m : String)
    (f : String × ℚ × ℚ → ℚ) :
    alookup ((models.filterMap (model_entry all dt)).map (fun e => (e.1, f e))) m
      = if m ∈ models then (model_entry all dt m).map f else none := by
  induction models with
  | nil => simp [alookup]
  | cons x xs ih =>
    rw [List.filterMap_cons]
    cases hx : model_entry all dt x with
    | none =>
      by_cases hxm : x = m
      · subst hxm
        simp [hx, ih]
      · simp only [List.mem_cons]
        rw [ih]
        by_cases hmem : m ∈ xs <;> simp [hmem, hxm, Ne.symm hxm]
    | some e =>
      have hkey : e.1 = x := model_entry_key all dt x e hx
      rw [List.map_cons, alookup_cons]
      by_cases hxm : x = m
      · subst hxm
        simp [hkey, hx]
      · have : (e.1 == m) = false := by
          simp [hkey, hxm]
        rw [this]
        simp only [Bool.false_eq_true, if_false, List.mem_cons]
        rw [ih]
        by_cases hmem : m ∈ xs <;> simp [hmem, hxm, Ne.symm hxm]

/-- Lookup in a map that pairs every key of a list with a value computed from
the key (the shape produced by `calculate_models_accuracy`). -/
theorem alookup_map_val {α : Type} (models : List String) (val : String → α)
    (m : String) :
    alookup (models.map (fun x => (x, val x))) m
      = if m ∈ models then some (val m) else none := by
  induction models with
  | nil => simp [alookup]
  | cons x xs ih =>
    rw [List.map_cons, alookup_cons]
    by_cases hxm : x = m
    · subst hxm; simp
    · have : (x == m) = false := by simp [hxm]
      rw [this]
      simp only [Bool.false_eq_true, if_false, List.mem_cons]
      rw [ih]
      by_cases hmem : m ∈ xs <;> simp [hmem, hxm, Ne.symm hxm]

/-- In an association list with pairwise distinct keys, a key determines its
value. -/
theorem assoc_nodup_value_eq {α : Type} (l : List (String × α))
    (hn : (l.map Prod.fst).Nodup) (k : String) (v w : α)
    (hv : (k, v) ∈ l) (hw : (k, w) ∈ l) : v = w := by
  induction l with
  | nil => cases hv
  | cons p rest ih =>
    rw [List.map_cons, List.nodup_cons] at hn
    rcases List.mem_cons.mp hv with hv1 | hv1 <;>
      rcases List.mem_cons.mp hw with hw1 | hw1
    · have h2 : (k, v) = (k, w) := hv1.trans hw1.symm
      simpa using h2
    · exfalso
      apply hn.1
      have h2 : k ∈ List.map Prod.fst rest := List.mem_map_of_mem Prod.fst hw1
      rw [← hv1]
      exact h2
    · exfalso
      apply hn.1
      have h2 : k ∈ List.map Prod.fst rest := List.mem_map_of_mem Prod.fst hv1
      rw [← hw1]
      exact h2
    · exact ih hn.2 hv1 hw1

/-- The `total_score`/`total_count` accumulation when the model has a score in
every subset: the sums of the weighted scores and of the weights. -/
theorem foldl_totals_of_all_present (dt : String → ℚ) (m : String)
    (er : List (String × List (String × ℚ))) (init : ℚ × ℚ)
    (h : ∀ s ∈ er, (alookup s.2 m).isSome = true) :
    er.foldl (fun acc s =>
        match alookup s.2 m with
        | some score => (acc.1 + score * dt s.1, acc.2 + dt s.1)
        | none => acc) init
      = (init.1 + (er.map (fun s => dget s.2 m * dt s.1)).sum,
         init.2 + (er.map (fun s => dt s.1)).sum) := by
  induction er generalizing init with
  | nil => simp
  | cons s ss ih =>
    obtain ⟨v, hv⟩ := Option.isSome_iff_exists.mp (h s (List.mem_cons_self s ss))
    have hrest : ∀ t ∈ ss, (alookup t.2 m).isSome = true :=
      fun t ht => h t (List.mem_cons_of_mem s ht)
    rw [List.foldl_cons, hv]
    rw [ih _ hrest]
    have hd : dget s.2 m = v := by rw [dget_eq_getD, hv]; rfl
    simp only [List.map_cons, List.sum_cons, hd]
    rw [Prod.mk.injEq]
    refine ⟨by ring, by ring⟩

theorem totals_for_of_all_present (er : List (String × List (String × ℚ)))
    (dt : String → ℚ) (m : String)
    (h : ∀ s ∈ er, (alookup s.2 m).isSome = true) :
    totals_for er dt m
      = ((er.map (fun s => dget s.2 m * dt s.1)).sum,
         (er.map (fun s => dt s.1)).sum) := by
  unfold totals_for
  rw [foldl_totals_of_all_present dt m er (0, 0) h]
  simp

/-- `compute_macro_micro_averages` on a nonempty input, unfolded to the two
projections of its entry list. -/
theorem compute_macro_micro_cons (fn : String) (fs : List (String × ℚ))
    (rest : List (String × List (String × ℚ))) (dt : String → ℚ) :
    compute_macro_micro_averages ((fn, fs) :: rest) dt
      = some ((((fs.map Prod.fst).filterMap (model_entry ((fn, fs) :: rest) dt)).map
                 (fun e => (e.1, e.2.1))),
              (((fs.map Prod.fst).filterMap (model_entry ((fn, fs) :: rest) dt)).map
                 (fun e => (e.1, e.2.2)))) := rfl

theorem alookup_macro_entries (all : List (String × List (String × ℚ)))
    (dt : String → ℚ) (models : List String) (m : String) :
    alookup ((models.filterMap (model_entry all dt)).map (fun e => (e.1, e.2.1))) m
      = if m ∈ models then (model_entry all dt m).map (fun e => e.2.1) else none :=
  alookup_entries all dt models m (fun e => e.2.1)

theorem alookup_entries_micro (all : List (String × List (String × ℚ)))
    (dt : String → ℚ) (models : List String) (m : String) :
    alookup ((models.filterMap (model_entry all dt)).map (fun e => (e.1, e.2.2))) m
      = if m ∈ models then (model_entry all dt m).map (fun e => e.2.2) else none :=
  alookup_entries all dt models m (fun e => e.2.2)

/-! ### Claim theorems -/

/-- C1 (counterexample): with two subsets where model `m` has a score in the
first subset's mapping but is absent from the second subset's mapping, `m` is
NOT excluded: it appears in both the macro and the micro output (macro `1`,
micro `(1 + 0)/2 = 1/2`), refuting the strict intersection policy. -/
theorem model_missing_from_later_subset_not_excluded :
    (compute_macro_micro_averages [("A", [("m", 1)]), ("B", [])]
        (fun s => if s = "A" then 10 else 5)).map
      (fun p => (alookup p.1 "m", alookup p.2 "m"))
      = some (some 1, some (1 / 2)) := by
  norm_num [compute_macro_micro_averages, model_entry, totals_for, alookup, dget]

/-- C1 (amended): the exclusion is governed by the FIRST subset's mapping
alone.  A model absent from the first subset's mapping is silently excluded
from both averages and no error is raised; a model present in the first
subset's mapping appears in both averages whenever its summed weight over the
subsets containing it is positive, even if it is absent from a later subset. -/
theorem first_subset_membership_governs_averages
    (fn : String) (fs : List (String × ℚ))
    (rest : List (String × List (String × ℚ))) (dt : String → ℚ) (m : String) :
    (m ∉ fs.map Prod.fst →
      ∃ mac mic, compute_macro_micro_averages ((fn, fs) :: rest) dt = some (mac, mic)
        ∧ alookup mac m = none ∧ alookup mic m = none) ∧
    (m ∈ fs.map Prod.fst → 0 < (totals_for ((fn, fs) :: rest) dt m).2 →
      ∃ mac mic, compute_macro_micro_averages ((fn, fs) :: rest) dt = some (mac, mic)
        ∧ (alookup mac m).isSome = true ∧ (alookup mic m).isSome = true) := by
  constructor
  · intro hm
    refine ⟨_, _, compute_macro_micro_cons fn fs rest dt, ?_, ?_⟩
    · rw [alookup_macro_entries]
      simp [hm]
    · rw [alookup_entries_micro]
      simp [hm]
  · intro hm hpos
    refine ⟨_, _, compute_macro_micro_cons fn fs rest dt, ?_, ?_⟩
    · rw [alookup_macro_entries]
      unfold model_entry
      rw [if_pos hpos]
      simp [hm]
    · rw [alookup_entries_micro]
      unfold model_entry
      rw [if_pos hpos]
      simp [hm]

theorem first_subset_membership_governs_averages_witness :
    ∃ mac mic,
      compute_macro_micro_averages [("A", [("m", 1)]), ("B", [("x", 0)])]
          (fun _ => 1) = some (mac, mic)
        ∧ alookup mac "x" = none ∧ alookup mic "x" = none :=
  (first_subset_membership_governs_averages "A" [("m", 1)] [("B", [("x", 0)])]
    (fun _ => 1) "x").1 (by decide)

/-- C2: a model with a score in every subset and positive total weight gets
macro average `Σ_s accuracy[s][m] * weight[s] / Σ_s weight[s]` and micro
average the unweighted arithmetic mean of its per-subset accuracies. -/
theorem macro_weighted_micro_unweighted_averages
    (er : List (String × List (String × ℚ))) (dt : String → ℚ) (m : String)
    (hne : er ≠ [])
    (hall : ∀ s ∈ er, (alookup s.2 m).isSome = true)
    (hw : 0 < (er.map (fun s => dt s.1)).sum) :
    ∃ mac mic, compute_macro_micro_averages er dt = some (mac, mic) ∧
      alookup mac m = some ((er.map (fun s => dget s.2 m * dt s.1)).sum
                            / (er.map (fun s => dt s.1)).sum) ∧
      alookup mic m = some ((er.map (fun s => dget s.2 m)).sum / (er.length : ℚ)) := by
  cases er with
  | nil => exact absurd rfl hne
  | cons hd rest =>
    obtain ⟨fn, fs⟩ := hd
    have htot := totals_for_of_all_present ((fn, fs) :: rest) dt m hall
    have hmem : m ∈ fs.map Prod.fst :=
      (alookup_isSome_iff fs m).mp (hall (fn, fs) (List.mem_cons_self _ _))
    have hpos : 0 < (totals_for ((fn, fs) :: rest) dt m).2 := by
      rw [htot]
      exact hw
    refine ⟨_, _, compute_macro_micro_cons fn fs rest dt, ?_, ?_⟩
    · rw [alookup_macro_entries]
      unfold model_entry
      rw [if_pos hpos, htot]
      simp [hmem]
    · rw [alookup_entries_micro]
      unfold model_entry
      rw [if_pos hpos]
      simp [hmem]

theorem macro_weighted_micro_unweighted_averages_witness :
    ∃ mac mic,
      compute_macro_micro_averages [("A", [("m", 1)]), ("B", [("m", 0)])]
          (fun s => if s = "A" then 10 else 1000) = some (mac, mic) ∧
        alookup mac "m" = some (10 / 1010) ∧ alookup mic "m" = some (1 / 2) := by
  obtain ⟨mac, mic, h1, h2, h3⟩ := macro_weighted_micro_unweighted_averages
    [("A", [("m", 1)]), ("B", [("m", 0)])] (fun s => if s = "A" then 10 else 1000)
    "m" (by simp) (by decide)
    (by norm_num [alookup, (show ¬ (("B":String) = "A") from by decide)])
  refine ⟨mac, mic, h1, ?_, ?_⟩
  · rw [h2]
    norm_num [dget, alookup, (show ¬ (("B":String) = "A") from by decide)]
  · rw [h3]
    norm_num [dget, alookup]

/-- C5 (counterexample): when the summed subset weight for a model is `0`, the
combiner does not produce "a defined 0" for that model: the model is absent
from both outputs. -/
theorem zero_weight_model_omitted_not_zero :
    compute_macro_micro_averages [("A", [("m", 1)])] (fun _ => 0) = some ([], []) ∧
    alookup ([] : List (String × ℚ)) "m" = none := by
  constructor
  · norm_num [compute_macro_micro_averages, model_entry, totals_for, alookup, dget]
  · rfl

/-- C5 (amended): every aggregation-stage division is guarded.  A question
group with `total_count == 0` has ratio defined as `0`; a zero summed document
count makes the JSON summary's macro accuracy a defined `0`; a model whose
summed subset weight is `0` is omitted from both combiner outputs (no division
is performed for it); in no case is a division-by-zero raised. -/
theorem division_guards
    (g : List ℚ) (tasks : List (Option ℚ × Option ℚ))
    (er : List (String × List (String × ℚ))) (dt : String → ℚ) (m : String)
    (mac mic : List (String × ℚ))
    (hg : g.length = 0) (hd : (extract_totals tasks).2 = 0)
    (hw : (totals_for er dt m).2 = 0)
    (hres : compute_macro_micro_averages er dt = some (mac, mic)) :
    group_ratio g = 0 ∧ extract_macro_accuracy tasks = 0 ∧
    alookup mac m = none ∧ alookup mic m = none := by
  refine ⟨?_, ?_, ?_⟩
  · unfold group_ratio
    rw [hg]
    simp
  · unfold extract_macro_accuracy
    rw [hd]
    simp
  · cases er with
    | nil => cases hres
    | cons hd1 rest =>
      obtain ⟨fn, fs⟩ := hd1
      rw [compute_macro_micro_cons fn fs rest dt] at hres
      injection hres with hres
      injection hres with h1 h2
      subst h1
      subst h2
      have hent : model_entry ((fn, fs) :: rest) dt m = none := by
        unfold model_entry
        rw [hw]
        simp
      constructor
      · rw [alookup_macro_entries, hent]
        simp
      · rw [alookup_entries_micro, hent]
        simp

theorem division_guards_witness :
    group_ratio [] = 0 ∧ extract_macro_accuracy [(some 1, none)] = 0 ∧
    alookup ([] : List (String × ℚ)) "m" = none ∧
    alookup ([] : List (String × ℚ)) "m" = none :=
  division_guards [] [(some 1, none)] [("A", [("m", 1)])] (fun _ => 0) "m" [] []
    rfl rfl (by norm_num [totals_for, alookup])
    (by norm_num [compute_macro_micro_averages, model_entry, totals_for, alookup, dget])

/-- C9: with exactly one subset, every reported model's macro average equals
its micro average, and both equal that model's single-subset accuracy. -/
theorem single_subset_macro_eq_micro
    (sn : String) (ss : List (String × ℚ)) (dt : String → ℚ) (m : String)
    (mac mic : List (String × ℚ)) (x : ℚ)
    (hres : compute_macro_micro_averages [(sn, ss)] dt = some (mac, mic))
    (hmac : alookup mac m = some x) :
    alookup mic m = some x ∧ alookup ss m = some x := by
  rw [compute_macro_micro_cons sn ss [] dt] at hres
  injection hres with hres
  injection hres with h1 h2
  subst h1
  subst h2
  rw [alookup_macro_entries] at hmac
  by_cases hm : m ∈ ss.map Prod.fst
  · rw [if_pos hm] at hmac
    by_cases hpos : 0 < (totals_for [(sn, ss)] dt m).2
    · cases halo : alookup ss m with
      | none =>
        exfalso
        have h0 : totals_for [(sn, ss)] dt m = (0, 0) := by
          simp [totals_for, halo]
        rw [h0] at hpos
        exact lt_irrefl 0 hpos
      | some v =>
        have htv : totals_for [(sn, ss)] dt m = (v * dt sn, dt sn) := by
          simp [totals_for, halo]
        have hdt : (0:ℚ) < dt sn := by
          rw [htv] at hpos
          exact hpos
        unfold model_entry at hmac
        rw [if_pos hpos, htv] at hmac
        simp only [Option.map_some', Option.some.injEq] at hmac
        have hxv : x = v := by
          rw [← hmac]
          exact mul_div_cancel_right₀ v (ne_of_gt hdt)
        have hdg : dget ss m = v := by
          rw [dget_eq_getD, halo]
          rfl
        constructor
        · rw [alookup_entries_micro, if_pos hm]
          unfold model_entry
          rw [if_pos hpos]
          simp only [Option.map_some', Option.some.injEq]
          rw [hxv]
          simp [hdg]
        · rw [hxv]
    · unfold model_entry at hmac
      rw [if_neg hpos] at hmac
      cases hmac
  · rw [if_neg hm] at hmac
    cases hmac

theorem single_subset_macro_eq_micro_witness :
    alookup [("m", (7:ℚ)/10)] "m" = some ((7:ℚ)/10) ∧
    alookup [("m", (7:ℚ)/10)] "m" = some ((7:ℚ)/10) :=
  single_subset_macro_eq_micro "S" [("m", (7:ℚ)/10)] (fun _ => 3) "m"
    [("m", (7:ℚ)/10)] [("m", (7:ℚ)/10)] ((7:ℚ)/10)
    (by
      have hent : model_entry [("S", [("m", (7:ℚ)/10)])] (fun _ => 3) "m"
          = some ("m", 7/10, 7/10) := by
        norm_num [model_entry, totals_for, alookup, dget]
      rw [compute_macro_micro_cons]
      simp [List.filterMap_cons, hent])
    (by rfl)

/-- C3: for a question group with values in `[0,1]` and positive size, the
ratio lies in `[0,1]`, and it equals `1` exactly when the question's id is
placed in the universally-correct id list. -/
theorem ratio_bounded_and_universal_iff
    (groups : List (String × List ℚ)) (gid : String) (g : List ℚ)
    (hmem : (gid, g) ∈ groups) (hnodup : (groups.map Prod.fst).Nodup)
    (hval : ∀ x ∈ g, 0 ≤ x ∧ x ≤ 1) (hne : 0 < g.length) :
    0 ≤ group_ratio g ∧ group_ratio g ≤ 1 ∧
    (group_ratio g = 1 ↔ gid ∈ (get_all_correct_ids groups).1) := by
  have hlen : (0:ℚ) < (g.length : ℚ) := by exact_mod_cast hne
  have hsum0 : 0 ≤ g.sum := List.sum_nonneg (fun x hx => (hval x hx).1)
  have hsum1 : g.sum ≤ (g.length : ℚ) := by
    have h := List.sum_le_card_nsmul g 1 (fun x hx => (hval x hx).2)
    simpa [nsmul_eq_mul] using h
  have hr : group_ratio g = g.sum / (g.length : ℚ) := by
    unfold group_ratio
    rw [if_pos hne]
  refine ⟨?_, ?_, ?_⟩
  · rw [hr]
    exact div_nonneg hsum0 (le_of_lt hlen)
  · rw [hr, div_le_one hlen]
    exact hsum1
  · rw [hr]
    have hmemiff : gid ∈ (get_all_correct_ids groups).1 ↔ (g.length : ℚ) ≤ g.sum := by
      unfold get_all_correct_ids
      simp only [List.mem_filterMap]
      constructor
      · rintro ⟨⟨a1, a2⟩, ha, hfa⟩
        dsimp only at hfa
        by_cases hc : ((a2.length : ℚ) ≤ a2.sum)
        · rw [if_pos hc] at hfa
          have h1 : a1 = gid := Option.some.inj hfa
          subst h1
          have h2 : a2 = g := assoc_nodup_value_eq groups hnodup a1 a2 g ha hmem
          rw [h2] at hc
          exact hc
        · rw [if_neg hc] at hfa
          cases hfa
      · intro hc
        refine ⟨(gid, g), hmem, ?_⟩
        dsimp only
        rw [if_pos hc]
    rw [hmemiff]
    constructor
    · intro h1
      rw [div_eq_one_iff_eq (ne_of_gt hlen)] at h1
      rw [h1]
    · intro h1
      have h2 : g.sum = (g.length : ℚ) := le_antisymm hsum1 h1
      rw [h2, div_self (ne_of_gt hlen)]

theorem ratio_bounded_and_universal_iff_witness :
    0 ≤ group_ratio [(1:ℚ), 1] ∧ group_ratio [(1:ℚ), 1] ≤ 1 ∧
    (group_ratio [(1:ℚ), 1] = 1 ↔
      "q1" ∈ (get_all_correct_ids [("q1", [(1:ℚ), 1]), ("q2", [(1:ℚ), 0])]).1) :=
  ratio_bounded_and_universal_iff [("q1", [(1:ℚ), 1]), ("q2", [(1:ℚ), 0])]
    "q1" [(1:ℚ), 1] (by decide) (by decide) (by decide) (by decide)

/-- C4 (counterexample): the fallback path does NOT map
`task_b_2025-01-01T00-00-00.parquet` to `task_b`; the conjunction claimed by
the spec scenario is false. -/
theorem fallback_eval_name_not_task_b :
    ¬ (extract_eval_name "details_community|task_a:sub|0_2025-01-01T00-00-00.parquet"
          = "task_a:sub" ∧
       extract_eval_name "task_b_2025-01-01T00-00-00.parquet" = "task_b") := by
  decide

/-- C4 (amended): the delimiter path maps
`details_community|task_a:sub|0_2025-01-01T00-00-00.parquet` to `task_a:sub`,
and the fallback path maps `task_b_2025-01-01T00-00-00.parquet` to `task`
(its first `_`-delimited token). -/
theorem eval_name_extraction_two_paths :
    extract_eval_name "details_community|task_a:sub|0_2025-01-01T00-00-00.parquet"
      = "task_a:sub" ∧
    extract_eval_name "task_b_2025-01-01T00-00-00.parquet" = "task" := by
  decide

/-- The lookup of a model in the mapping produced by
`calculate_models_accuracy`: its mean accuracy when the model has a retained
group, `none` otherwise. -/
theorem alookup_calc (records : List Record) (fids : Option (List String))
    (m : String) :
    alookup (calculate_models_accuracy records fids) m
      = if m ∈ ((retained_records records fids).map (fun r => r.model_name)).dedup
        then some ((model_scores (retained_records records fids) m).sum
                   / ((model_scores (retained_records records fids) m).length : ℚ))
        else none := by
  unfold calculate_models_accuracy
  exact alookup_map_val _ _ m

/-- C6: a model whose records are all removed by the filter is not a key of
the returned mapping; a model with at least one retained record is mapped to
the mean of `is_correct` over its retained records. -/
theorem model_absent_or_mean_accuracy
    (records : List Record) (ids : List String) (m : String) :
    ((∀ r ∈ records, r.model_name = m → ids.contains r.question_id = true) →
      alookup (calculate_models_accuracy records (some ids)) m = none) ∧
    ((∃ r ∈ records, r.model_name = m ∧ ids.contains r.question_id = false) →
      alookup (calculate_models_accuracy records (some ids)) m
        = some ((model_scores (retained_records records (some ids)) m).sum
                / ((model_scores (retained_records records (some ids)) m).length : ℚ))) := by
  constructor
  · intro hall
    rw [alookup_calc, if_neg]
    intro hmem
    rw [List.mem_dedup] at hmem
    obtain ⟨r, hr, hrm⟩ := List.mem_map.mp hmem
    unfold retained_records at hr
    rw [List.mem_filter] at hr
    have hcon := hall r hr.1 hrm
    rw [hcon] at hr
    simp at hr
  · rintro ⟨r, hr, hrm, hrc⟩
    rw [alookup_calc, if_pos]
    rw [List.mem_dedup]
    refine List.mem_map.mpr ⟨r, ?_, hrm⟩
    unfold retained_records
    rw [List.mem_filter]
    refine ⟨hr, ?_⟩
    rw [hrc]
    rfl

/-- The flattened records of the spec's worked scenario. -/
def scenario_records : List Record :=
  [⟨"q1", "x", 1⟩, ⟨"q1", "y", 1⟩, ⟨"q2", "x", 1⟩, ⟨"q2", "y", 0⟩]

theorem model_absent_or_mean_accuracy_witness :
    alookup (calculate_models_accuracy scenario_records (some ["q1"])) "y"
      = some ((model_scores (retained_records scenario_records (some ["q1"])) "y").sum
              / ((model_scores (retained_records scenario_records (some ["q1"])) "y").length : ℚ)) :=
  (model_absent_or_mean_accuracy scenario_records ["q1"] "y").2 (by decide)

/-- C7 (counterexample): with artifacts `x`, `a`, `b` in mapping order and the
write of `a` failing, `save_results` writes only `x`: artifact `b`, whose own
write would succeed, is never written, so one failure does prevent other
artifacts from being written. -/
theorem save_results_abort_counterexample :
    save_results ["a"] ["x", "a", "b"] = (["x"], true) ∧
    ("b" : String) ∉ (save_results ["a"] ["x", "a", "b"]).1 ∧
    ("b" : String) ∉ ["a"] := by
  decide

/-- C7 (amended): in `save_results` the first failing write aborts the loop —
exactly the artifacts strictly before the first failing one are written and
the exception escapes iff some write fails; in the per-file loop of
`combine_results_memory_efficient` each failure is caught, and every
non-failing file is still written. -/
theorem save_aborts_combine_continues (failing files : List String) :
    save_results failing files
      = (files.takeWhile (fun n => ! failing.contains n),
         files.any (fun n => failing.contains n)) ∧
    (∀ n ∈ files, failing.contains n = false → n ∈ combine_write_loop failing files) := by
  constructor
  · induction files with
    | nil => rfl
    | cons x xs ih =>
      unfold save_results
      by_cases hx : x ∈ failing
      · simp [hx, List.takeWhile_cons, List.any_cons, List.contains, List.elem_eq_mem]
      · simp [hx, List.takeWhile_cons, List.any_cons, List.contains, List.elem_eq_mem, ih]
  · intro n hn hnf
    unfold combine_write_loop
    rw [List.mem_filter]
    refine ⟨hn, ?_⟩
    rw [hnf]
    rfl

theorem save_aborts_combine_continues_witness :
    ("b" : String) ∈ combine_write_loop ["a"] ["x", "a", "b"] :=
  (save_aborts_combine_continues ["a"] ["x", "a", "b"]).2 "b" (by decide) (by decide)

/-- C8: every record grouped by the second pass carries `model_name` equal to
the discovered model name, `eval_name` equal to the extracted evaluation name,
and `timestamp` equal to the last `_`-delimited segment of the run-folder name
when that name contains `_`, else the raw name itself. -/
theorem tagged_record_metadata
    (eval_name : String) (info : FileInfo) (rows : List Nat) (t : TaggedRecord)
    (ht : t ∈ tag_records eval_name info rows) :
    t.model_name = info.model_name ∧ t.eval_name = eval_name ∧
    t.timestamp = (if pyContains info.evaluation_time '_'
                   then (pySplit '_' info.evaluation_time).getLastD ""
                   else info.evaluation_time) := by
  unfold tag_records at ht
  obtain ⟨r, hr, rfl⟩ := List.mem_map.mp ht
  exact ⟨rfl, rfl, rfl⟩

theorem tagged_record_metadata_witness :
    (⟨0, "m1", "e1", "ts"⟩ : TaggedRecord).model_name = "m1" ∧
    (⟨0, "m1", "e1", "ts"⟩ : TaggedRecord).eval_name = "e1" ∧
    (⟨0, "m1", "e1", "ts"⟩ : TaggedRecord).timestamp
      = (if pyContains "pre_ts" '_' then (pySplit '_' "pre_ts").getLastD ""
         else "pre_ts") :=
  tagged_record_metadata "e1" ⟨"/p", "m1", "pre_ts"⟩ [0] ⟨0, "m1", "e1", "ts"⟩
    (by decide)

/-- C10: the mapping returned by `calculate_models_accuracy` is a
`defaultdict(float)`, so keyed access at an absent model returns `0.0` rather
than raising; a caller using keyed access therefore sees the same `0` for an
absent model as for a model whose mean score is `0`. -/
theorem defaultdict_absent_reads_zero
    (records1 records2 : List Record) (fids1 fids2 : Option (List String))
    (m : String)
    (h1 : alookup (calculate_models_accuracy records1 fids1) m = none)
    (h2 : alookup (calculate_models_accuracy records2 fids2) m = some 0) :
    dget (calculate_models_accuracy records1 fids1) m = 0 ∧
    dget (calculate_models_accuracy records2 fids2) m = 0 := by
  rw [dget_eq_getD, dget_eq_getD, h1, h2]
  exact ⟨rfl, rfl⟩

theorem defaultdict_absent_reads_zero_witness :
    dget (calculate_models_accuracy [⟨"q", "x", 1⟩] none) "y" = 0 ∧
    dget (calculate_models_accuracy [⟨"q", "y", 0⟩] none) "y" = 0 :=
  defaultdict_absent_reads_zero [⟨"q", "x", 1⟩] [⟨"q", "y", 0⟩] none none "y"
    (by decide)
    (by
      rw [alookup_calc, if_pos (by decide)]
      norm_num [model_scores, retained_records])

end LightevalSpec
